import Mathlib

/-!
Verification of the pixl-toastr command pipeline.

The development shallowly embeds the three Python modules of the repository
(the resilient command executor, the minimal command generator with its
post-processing helpers, and the context-rich application command generator)
as executable Lean functions over `List Char`, and proves the behavioural
claims about them.  Python strings are modelled as `List Char`; Python
exceptions are modelled with `Except`; the external world (the executable
search path, the subprocess facility, the relative-path helper and the
language-model collaborator) is passed in as explicit oracle parameters.
-/

/-! ## Python string primitives (ASCII fragment) -/

/-- The character list backing a string literal. -/
def str (s : String) : List Char := s.data

/-- Single-quote character (written by code point to keep sources plain). -/
def sqc : Char := Char.ofNat 39

/-- Backtick character (written by code point to keep sources plain). -/
def bqc : Char := Char.ofNat 96

/-- Python `str.strip` / `\s` whitespace set (ASCII fragment). -/
def pyIsSpaceCh (c : Char) : Bool :=
  c = ' ' || c = '\t' || c = '\n' || c = '\r' || c = Char.ofNat 11 || c = Char.ofNat 12

/-- Python `str.lower` (ASCII fragment). -/
def pyLower (s : List Char) : List Char := s.map Char.toLower

/-- Strip the characters of `set` from both ends (Python `str.strip(chars)`). -/
def pyStripChars (set s : List Char) : List Char :=
  ((s.dropWhile (fun c => set.contains c)).reverse.dropWhile (fun c => set.contains c)).reverse

/-- Python `str.strip()` with no argument: strip whitespace from both ends. -/
def pyStrip (s : List Char) : List Char :=
  ((s.dropWhile pyIsSpaceCh).reverse.dropWhile pyIsSpaceCh).reverse

/-- `strStartsWith s p` is true when `p` is an initial segment of `s`
(Python `str.startswith`). -/
def strStartsWith : List Char → List Char → Bool
  | _, [] => true
  | [], _ :: _ => false
  | a :: as, b :: bs => a = b && strStartsWith as bs

/-- Python `str.endswith`. -/
def strEndsWith (s p : List Char) : Bool := strStartsWith s.reverse p.reverse

/-- Substring containment, Python `sub in s`. -/
def strContains : List Char → List Char → Bool
  | [], sub => strStartsWith [] sub
  | x :: xs, sub => strStartsWith (x :: xs) sub || strContains xs sub

/-- Python `s.split(sep)` for a one-character separator; always non-empty. -/
def splitOnChar (c : Char) : List Char → List (List Char)
  | [] => [[]]
  | x :: xs =>
    if x = c then [] :: splitOnChar c xs
    else
      match splitOnChar c xs with
      | [] => [[x]]
      | y :: ys => (x :: y) :: ys

/-- Worker for `pySplitWs`; `cur` holds the current token reversed. -/
def pySplitWsAux : List Char → List Char → List (List Char)
  | cur, [] => if cur.isEmpty then [] else [cur.reverse]
  | cur, x :: xs =>
    if pyIsSpaceCh x then
      if cur.isEmpty then pySplitWsAux [] xs else cur.reverse :: pySplitWsAux [] xs
    else pySplitWsAux (x :: cur) xs

/-- Python `s.split()` with no argument: split on whitespace runs, dropping
empty tokens. -/
def pySplitWs (s : List Char) : List (List Char) := pySplitWsAux [] s

/-- Python `str.isalnum` (ASCII fragment): non-empty and all alphanumeric. -/
def strIsAlnum (s : List Char) : Bool := !s.isEmpty && s.all Char.isAlphanum

/-- Index of the first occurrence of `c` (Python `str.index`, as `Option`). -/
def firstIdxOf (c : Char) : List Char → Option Nat
  | [] => none
  | x :: xs => if x = c then some 0 else (firstIdxOf c xs).map (· + 1)

/-- Index of the last occurrence of `c` (Python `str.rindex`, as `Option`). -/
def lastIdxOf (c : Char) (s : List Char) : Option Nat :=
  (firstIdxOf c s.reverse).map (fun i => s.length - 1 - i)

/-- Python `splitlines` restricted to the line breaks LF, CR and CRLF. -/
def splitlinesAux : List Char → List Char → List (List Char)
  | cur, [] => if cur.isEmpty then [] else [cur.reverse]
  | cur, '\r' :: '\n' :: rest => cur.reverse :: splitlinesAux [] rest
  | cur, '\n' :: rest => cur.reverse :: splitlinesAux [] rest
  | cur, '\r' :: rest => cur.reverse :: splitlinesAux [] rest
  | cur, c :: rest => splitlinesAux (c :: cur) rest

/-- Python `str.splitlines`. -/
def splitlinesPy (s : List Char) : List (List Char) := splitlinesAux [] s

/-- Decimal digits of a natural number (fuel-driven so it reduces in the
kernel). -/
def natReprAux : Nat → Nat → List Char
  | 0, _ => []
  | fuel + 1, n =>
    if n < 10 then [Char.ofNat (48 + n)]
    else natReprAux fuel (n / 10) ++ [Char.ofNat (48 + n % 10)]

/-- Decimal rendering of a natural number. -/
def natRepr (n : Nat) : List Char := natReprAux (n + 1) n

/-- Decimal rendering of an integer (Python `str(int)`). -/
def intRepr : Int → List Char
  | .ofNat n => natRepr n
  | .negSucc n => '-' :: natRepr (n + 1)

/-- Remove every occurrence of `c` (Python `str.replace(c, "")`). -/
def removeAll (c : Char) (s : List Char) : List Char := s.filter (fun d => d ≠ c)

/-! ## shlex: POSIX shell word splitting, quoting and joining

Model of the Python `shlex` functions used by the repository:
`shlex.split` (POSIX mode, whitespace split), `shlex.quote` and
`shlex.join`.  `Except Unit` stands for the `ValueError` raised on an
unterminated quote or a trailing escape character. -/

/-- `shlex` whitespace set (space, tab, carriage return, line feed). -/
def shWsCh (c : Char) : Bool := c = ' ' || c = '\t' || c = '\r' || c = '\n'

/-- Lexer modes: outside quotes, inside single quotes, inside double quotes. -/
inductive ShMode where
  | norm
  | insingle
  | indouble
deriving DecidableEq

/-- Worker for `shlexSplit`: `cur` is the current token reversed, `none`
when no token has been started. -/
def shlexSplitAux : ShMode → Option (List Char) → List Char → Except Unit (List (List Char))
  | .norm, none, [] => .ok []
  | .norm, some t, [] => .ok [t.reverse]
  | .norm, cur, c :: rest =>
    if shWsCh c then
      match cur with
      | none => shlexSplitAux .norm none rest
      | some t => (shlexSplitAux .norm none rest).map (fun r => t.reverse :: r)
    else if c = sqc then shlexSplitAux .insingle (some (cur.getD [])) rest
    else if c = '"' then shlexSplitAux .indouble (some (cur.getD [])) rest
    else if c = '\\' then
      match rest with
      | [] => .error ()
      | d :: rest2 => shlexSplitAux .norm (some (d :: cur.getD [])) rest2
    else shlexSplitAux .norm (some (c :: cur.getD [])) rest
  | .insingle, _, [] => .error ()
  | .insingle, cur, c :: rest =>
    if c = sqc then shlexSplitAux .norm cur rest
    else shlexSplitAux .insingle (cur.map (fun t => c :: t)) rest
  | .indouble, _, [] => .error ()
  | .indouble, cur, c :: rest =>
    if c = '"' then shlexSplitAux .norm cur rest
    else if c = '\\' then
      match rest with
      | [] => .error ()
      | d :: rest2 =>
        if d = '"' || d = '\\' then shlexSplitAux .indouble (cur.map (fun t => d :: t)) rest2
        else shlexSplitAux .indouble (cur.map (fun t => d :: '\\' :: t)) rest2
    else shlexSplitAux .indouble (cur.map (fun t => c :: t)) rest

/-- Python `shlex.split` in POSIX mode; `ValueError` becomes `.error ()`. -/
def shlexSplit (s : List Char) : Except Unit (List (List Char)) :=
  shlexSplitAux .norm none s

/-- Characters `shlex.quote` leaves unquoted (the `re.ASCII` word class plus
a hyphen and `@%+=:,.` and a slash). -/
def shSafeChar (c : Char) : Bool :=
  c.isAlphanum || c = '_' || c = '@' || c = '%' || c = '+' || c = '=' ||
  c = ':' || c = ',' || c = '.' || c = '/' || c = '-'

/-- Python `shlex.quote`. -/
def shlexQuote (s : List Char) : List Char :=
  if s.isEmpty then [sqc, sqc]
  else if s.all shSafeChar then s
  else
    sqc :: (s.flatMap (fun c => if c = sqc then [sqc, '"', sqc, '"', sqc] else [c])) ++ [sqc]

/-- Python `shlex.join` (equivalently the repository's fallback
`' '.join(shlex.quote(t) for t in tokens)`). -/
def shlexJoin (tokens : List (List Char)) : List Char :=
  List.intercalate (str (" ")) (tokens.map shlexQuote)

/-! ## `command_executor.py`: the resilient executor

`CommandExecutor` from `src/command_executor.py`.  The host platform test
`platform.system() == "Windows"` becomes the parameter `isWindows`;
`shutil.which` becomes the oracle `which`; one `subprocess.run` invocation
becomes a `ProcOutcome` describing what the process facility did
(completion with an exit code, or one of the exception classes the source
catches).  The `IndexError` that line 28 of the source can raise is the
`.error ()` of the classifier. -/

/-- The keyword tuple of `_looks_like_shell_script` line 21. -/
def kwStarts : List (List Char) := [str ("for "), str ("while "), str ("if "), str ("case ")]

/-- The operator list of `_looks_like_shell_script` line 24. -/
def shellOps : List (List Char) :=
  [str (";"), str ("&&"), str ("||"), str ("|"), str (">"), str ("<"), [bqc]]

/-- The Windows `%VAR%` test of `_looks_like_shell_script` lines 31-35
(evaluated only when `'%' in command` and the platform is Windows). -/
def winPercent (isWindows : Bool) (command : List Char) : Bool :=
  if command.contains '%' && isWindows then
    let parts := splitOnChar '%' command
    decide (2 < parts.length) && strIsAlnum (parts.getD 1 [])
  else false

/-- `CommandExecutor._looks_like_shell_script`.  Faithful to the source: the
`$`-branch tests `'{' in command` anywhere, and inspects the first
whitespace token after the *last* `'$'`; when nothing but whitespace follows
that `'$'`, `command.split('$')[-1].split()[0]` raises `IndexError`,
modelled by `.error ()`. -/
def looks_like_shell_script (isWindows : Bool) (command : List Char) : Except Unit Bool :=
  if kwStarts.any (fun k => strStartsWith (pyStrip (pyLower command)) k) then .ok true
  else if shellOps.any (fun op => strContains command op) then .ok true
  else if command.contains '$' then
    if command.contains '{' then .ok true
    else
      match pySplitWs ((splitOnChar '$' command).getLastD []) with
      | [] => .error ()
      | t :: _ => if strIsAlnum t then .ok true else .ok (winPercent isWindows command)
  else .ok (winPercent isWindows command)

/-- Outcome of one `subprocess.run` invocation, as distinguished by the
`try`/`except` arms of `run_command`. -/
inductive ProcOutcome where
  | completed (returncode : Int) (stdout stderr : List Char)
  | fileNotFound (details : List Char)
  | timeoutExpired
  | otherErr (details : List Char)
deriving DecidableEq

/-- `run_command` lines 83-88: combine stdout and stderr with labels,
skipping falsy (empty) streams, and strip the result. -/
def combinedOutput (stdout stderr : List Char) : List Char :=
  let a := if !stdout.isEmpty then (str ("Stdout:\n")) ++ pyStrip stdout ++ (str ("\n")) else []
  let b := if !stderr.isEmpty then (str ("Stderr:\n")) ++ pyStrip stderr else []
  pyStrip (a ++ b)

/-- `run_command` lines 70-122: the part after command preparation, shared by
the shell and argument-vector paths.  `errPre` is the `error_prefix`
computed earlier (empty when unset). -/
def procPart (errPre command : List Char) (proc : ProcOutcome) : Bool × List Char :=
  match proc with
  | .completed rc stdout stderr =>
    let combined := combinedOutput stdout stderr
    if rc = 0 then (true, combined)
    else
      let errMsg := (str ("Command failed with exit code ")) ++ intRepr rc ++ (str ("."))
      let errMsg := if !errPre.isEmpty then errPre ++ (str ("\n")) ++ errMsg else errMsg
      (false, errMsg ++ (str ("\n")) ++ combined)
  | .fileNotFound d =>
    (false, (str ("Error: FileNotFoundError during command execution. Command or shell not found? Details: ")) ++ d)
  | .timeoutExpired =>
    (false, (str ("Error: Command timed out after 300 seconds.\nCommand: ")) ++ command)
  | .otherErr d => (false, (str ("Subprocess execution error: ")) ++ d)

/-- `CommandExecutor.run_command`.  Classification happens outside the
`try` block, so a classifier `IndexError` propagates (`.error ()`); a
`ValueError` from `shlex.split` is caught and reported; a missing executable
sets `error_prefix` before the process facility runs. -/
def run_command (isWindows : Bool) (which : List Char → Option (List Char))
    (proc : ProcOutcome) (command : List Char) : Except Unit (Bool × List Char) :=
  match looks_like_shell_script isWindows command with
  | .error e => .error e
  | .ok useShell =>
    if useShell then .ok (procPart [] command proc)
    else
      match shlexSplit command with
      | .error _ =>
        .ok (false, (str ("Error splitting command string (check quoting): ")) ++
          (str ("\nCommand: ")) ++ command)
      | .ok [] => .ok (false, str ("Empty command after shlex.split"))
      | .ok (t :: _) =>
        let errPre :=
          match which t with
          | none => (str ("Error: Command executable ")) ++ sqc :: t ++ sqc :: (str (" not found in PATH."))
          | some _ => []
        .ok (procPart errPre command proc)

/-- The `no_retry_errors` marker list of `execute_with_retries` lines 145-151. -/
def noRetryErrors : List (List Char) :=
  [str ("Error splitting command string"), str ("executable not found"),
   str ("FileNotFoundError"), str ("no matches found"), str ("timed out")]

/-- Observable trace of one `execute_with_retries` call: the returned pair,
the backoff sleeps performed (in order), and how many `run_command`
attempts were made. -/
structure RetryTrace where
  success : Bool
  output : List Char
  sleeps : List Nat
  attempts : Nat
deriving DecidableEq

/-- The `while attempt < max_exec_retries` loop of `execute_with_retries`.
`remaining` equals `max_exec_retries - attempt` at every entry, so the
recursion is structural; `run k` is the outcome of the `k`-th (1-based)
`run_command` call, an oracle because consecutive attempts hit an external
world that may change. -/
def retryLoop (run : Nat → Except Unit (Bool × List Char)) (maxRetries : Nat) :
    Nat → Nat → List Char → List Nat → Nat → Except Unit RetryTrace
  | 0, _, lastErr, sleeps, made => .ok ⟨false, lastErr, sleeps, made⟩
  | remaining + 1, attempt, lastErr, sleeps, made =>
    if attempt < maxRetries then
      let a := attempt + 1
      match run a with
      | .error e => .error e
      | .ok (true, out) => .ok ⟨true, out, sleeps, made + 1⟩
      | .ok (false, out) =>
        if noRetryErrors.any (fun m => strContains out m) then
          .ok ⟨false, out, sleeps, made + 1⟩
        else if a < maxRetries then
          retryLoop run maxRetries remaining a out (sleeps ++ [2 ^ a]) (made + 1)
        else retryLoop run maxRetries remaining a out sleeps (made + 1)
    else .ok ⟨false, lastErr, sleeps, made⟩

/-- `CommandExecutor.execute_with_retries` with `max_retries = maxRetries`. -/
def execute_with_retries (maxRetries : Nat)
    (run : Nat → Except Unit (Bool × List Char)) : Except Unit RetryTrace :=
  retryLoop run maxRetries maxRetries 0 (str ("No error output captured.")) [] 0

/-! ## `command_generator.py`: the minimal generator's string helpers

The pure post-processing helpers of `src/command_generator.py`:
`clean_json_response`, `fix_command_quotes`, `replace_placeholder_with_file`
and `update_output_filename`.  The two regular expressions of
`fix_command_quotes` are embedded as direct scanners implementing exactly
their matching semantics (leftmost match, lazy dot for the quoted value,
greedy negated class for the `min` argument). -/

/-- The brace-slicing step shared verbatim by both `clean_json_response`
implementations: slice from the first `'{'` to the last `'}'` inclusive;
on a `ValueError` from `index`/`rindex` (either brace absent) the string is
returned unchanged. -/
def braceSlice (s : List Char) : List Char :=
  match firstIdxOf '{' s, lastIdxOf '}' s with
  | some i, some j => (s.drop i).take (j + 1 - i)
  | _, _ => s

/-- The fence-removal stage of the minimal `clean_json_response` (lines
32-37): when the stripped string both starts and ends with a triple
backtick, drop the first and last lines if there are at least three lines,
otherwise strip backtick characters from both ends. -/
def simpleFenceStage (s : List Char) : List Char :=
  if strStartsWith s (str ("```")) && strEndsWith s (str ("```")) then
    let lines := splitlinesPy s
    if 3 ≤ lines.length then List.intercalate (str ("\n")) ((lines.drop 1).dropLast)
    else pyStripChars [bqc] s
  else s

/-- `CommandGenerator.clean_json_response` of `src/command_generator.py`. -/
def clean_json_response_simple (s : List Char) : List Char :=
  braceSlice (simpleFenceStage (pyStrip s))

/-- Tokenisation shared by `replace_placeholder_with_file` and
`update_output_filename`: `shlex.split` with a fallback to plain
whitespace splitting when it raises. -/
def tokensOf (command : List Char) : List (List Char) :=
  match shlexSplit command with
  | .ok ts => ts
  | .error _ => pySplitWs command

/-- The token rewriting loop of `replace_placeholder_with_file` lines
88-104: the first (case-insensitive) `-i` keeps its designator and has its
following token replaced by `actual`; every later `-i` and its following
token are dropped; everything else passes through. -/
def replacePhLoop (actual : List Char) : Bool → List (List Char) → List (List Char)
  | _, [] => []
  | found, t :: rest =>
    if pyLower t = str ("-i") then
      if found then
        match rest with
        | [] => []
        | _ :: rest2 => replacePhLoop actual true rest2
      else
        match rest with
        | [] => [t]
        | _ :: rest2 => t :: actual :: replacePhLoop actual true rest2
    else t :: replacePhLoop actual found rest

/-- `CommandGenerator.replace_placeholder_with_file`. -/
def replace_placeholder_with_file (command actual : List Char) : List Char :=
  shlexJoin (replacePhLoop actual false (tokensOf command))

/-- Scanner for the lazy group of `(-vf\s+)(["'])(.*?)\2`: the shortest run
of non-newline characters up to the next occurrence of the opening quote
`q` (the dot of the pattern does not match a newline, and the lazy
quantifier stops at the first closing quote). -/
def vfScanContent (q : Char) : List Char → Option (List Char × List Char)
  | [] => none
  | c :: rest =>
    if c = q then some ([], rest)
    else if c = '\n' then none
    else (vfScanContent q rest).map (fun p => (c :: p.1, p.2))

/-- Try to match the `-vf` pattern anchored at the head of `s`: literal
`-vf`, one or more whitespace characters, an opening quote, the lazy
content, the matching closing quote.  Returns the whitespace run, the
quote, the content group and the remainder after the match. -/
def tryVfAt (s : List Char) : Option (List Char × Char × List Char × List Char) :=
  if strStartsWith s (str ("-vf")) then
    let after := s.drop 3
    let ws := after.takeWhile pyIsSpaceCh
    if ws.isEmpty then none
    else
      match after.drop ws.length with
      | [] => none
      | q :: rest =>
        if q = '"' || q = sqc then
          (vfScanContent q rest).map (fun p => (ws, q, p.1, p.2))
        else none
  else none

/-- `re.search` for the `-vf` pattern: leftmost match position, returning
the text before the match and the groups. -/
def findVf : List Char → Option (List Char × List Char × Char × List Char × List Char)
  | [] => none
  | c :: rest =>
    match tryVfAt (c :: rest) with
    | some r => some ([], r.1, r.2.1, r.2.2.1, r.2.2.2)
    | none => (findVf rest).map (fun r => (c :: r.1, r.2.1, r.2.2.1, r.2.2.2.1, r.2.2.2.2))

/-- `[^)]+\)` at the head of `a4`: the non-empty run of characters before
the next closing parenthesis, which must exist. -/
def scaleInner (a4 : List Char) : Option (List Char × List Char) :=
  if (a4.takeWhile (fun c => c != ')')).isEmpty then none
  else if strStartsWith (a4.drop (a4.takeWhile (fun c => c != ')')).length) (str (")")) then
    some (a4.takeWhile (fun c => c != ')'),
      (a4.drop (a4.takeWhile (fun c => c != ')')).length).drop 1)
  else none

/-- `min\(` (case-insensitive) then the group, at the head of `a3`. -/
def scaleMinPart (a3 : List Char) : Option (List Char × List Char) :=
  if strStartsWith (pyLower a3) (str ("min(")) then scaleInner (a3.drop 4)
  else none

/-- `=\s*` then the `min` part, at the head of `a1`. -/
def scaleEqPart (a1 : List Char) : Option (List Char × List Char) :=
  if strStartsWith a1 (str ("=")) then scaleMinPart ((a1.drop 1).dropWhile pyIsSpaceCh)
  else none

/-- Try to match `scale\s*=\s*min\(([^)]+)\)` (case-insensitive) at the head
of `s`; on success returns the group (the non-empty run of characters
before the next closing parenthesis) and the remainder. -/
def tryScaleAt (s : List Char) : Option (List Char × List Char) :=
  if strStartsWith (pyLower s) (str ("scale")) then
    scaleEqPart ((s.drop 5).dropWhile pyIsSpaceCh)
  else none

/-- The replacement text `"scale='min({g})'"` produced by the lambda of
`fix_command_quotes` lines 72-73. -/
def scaleRepl (inner : List Char) : List Char :=
  (str ("scale=")) ++ sqc :: (str ("min(")) ++ inner ++ [')', sqc]

/-- `re.sub` over the whole string for the `scale=min` pattern: scan left to
right, replacing every (non-overlapping) match.  Fuel-driven on the string
length; each step consumes at least one character. -/
def subScaleMinAux : Nat → List Char → List Char
  | 0, s => s
  | _ + 1, [] => []
  | fuel + 1, c :: rest =>
    match tryScaleAt (c :: rest) with
    | some (inner, r) => scaleRepl inner ++ subScaleMinAux fuel r
    | none => c :: subScaleMinAux fuel rest

/-- `re.sub(r'scale\s*=\s*min\(([^)]+)\)', lambda, filters, re.IGNORECASE)`. -/
def subScaleMin (s : List Char) : List Char := subScaleMinAux s.length s

/-- Expansion of a `re.sub` replacement template (the second argument of
`re.sub` is `new_vf`, a plain string whose backslash escapes Python still
interprets): `\\` is a backslash, `\1`..`\3` insert the groups, `\n`, `\t`,
`\r` are control characters, any other escaped letter or digit is a
`re.error`, and an escaped non-letter keeps both characters. -/
def expandTpl (g1 : List Char) (g2 : Char) (g3 : List Char) : List Char → Except Unit (List Char)
  | [] => .ok []
  | c :: rest =>
    if c = '\\' then
      match rest with
      | [] => .error ()
      | d :: rest2 =>
        if d = '\\' then (expandTpl g1 g2 g3 rest2).map (fun r => '\\' :: r)
        else if d = '1' then (expandTpl g1 g2 g3 rest2).map (fun r => g1 ++ r)
        else if d = '2' then (expandTpl g1 g2 g3 rest2).map (fun r => g2 :: r)
        else if d = '3' then (expandTpl g1 g2 g3 rest2).map (fun r => g3 ++ r)
        else if d = 'n' then (expandTpl g1 g2 g3 rest2).map (fun r => '\n' :: r)
        else if d = 't' then (expandTpl g1 g2 g3 rest2).map (fun r => '\t' :: r)
        else if d = 'r' then (expandTpl g1 g2 g3 rest2).map (fun r => '\r' :: r)
        else if d.isAlpha || d.isDigit then .error ()
        else (expandTpl g1 g2 g3 rest2).map (fun r => '\\' :: d :: r)
    else (expandTpl g1 g2 g3 rest).map (fun r => c :: r)

/-- `CommandGenerator.fix_command_quotes`: find the first quoted `-vf`
value; single-quote each `scale=min(...)` construct inside it, strip the
remaining double quotes, re-wrap in double quotes, and substitute the
result for the first match only (`re.sub(..., count=1)` replaces exactly
the span `re.search` found, after template expansion of `new_vf`). -/
def fix_command_quotes (command : List Char) : Except Unit (List Char) :=
  match findVf command with
  | none => .ok command
  | some (pre, ws, q, content, rest) =>
    let g1 := (str ("-vf")) ++ ws
    let ff := removeAll '"' (subScaleMin content)
    match expandTpl g1 q content (g1 ++ '"' :: (ff ++ ['"'])) with
    | .error e => .error e
    | .ok newVf => .ok (pre ++ newVf ++ rest)

/-- Python `os.path.basename` (POSIX separator). -/
def basename (p : List Char) : List Char := (splitOnChar '/' p).getLastD []

/-- Python `os.path.splitext` (POSIX): split at the last dot of the final
path component, unless every character before that dot in the component is
itself a dot (leading dots do not start an extension). -/
def splitext (p : List Char) : List Char × List Char :=
  let sepIdx : Int := match lastIdxOf '/' p with | some i => (i : Int) | none => -1
  let dotIdx : Int := match lastIdxOf '.' p with | some i => (i : Int) | none => -1
  if sepIdx < dotIdx then
    let beforeDot := (p.drop (sepIdx + 1).toNat).take (dotIdx - sepIdx - 1).toNat
    if beforeDot.any (fun c => c ≠ '.') then
      (p.take dotIdx.toNat, p.drop dotIdx.toNat)
    else (p, [])
  else (p, [])

/-- Truthiness of an optional string argument (Python `if desired_ext:`). -/
def optTruthyS : Option (List Char) → Bool
  | none => false
  | some s => !s.isEmpty

/-- `CommandGenerator.update_output_filename`.  The still-image extension
set `IMAGE_EXTENSIONS` is imported from `file_manager.py`, which is not
among the embedded sources; it is passed as the parameter `imageExts`
(spec: the file/environment collaborator supplies an `IMAGE_EXTENSIONS`
classification set used by output-filename derivation). -/
def update_output_filename (imageExts : List (List Char))
    (command input_file : List Char) (desired_ext : Option (List Char)) : List Char :=
  let tokens := tokensOf command
  if tokens.length < 3 then command
  else
    let output_token := tokens.getLastD []
    let out_ext := (splitext output_token).2
    let in_ext := (splitext input_file).2
    let out_ext2 :=
      if optTruthyS desired_ext then desired_ext.getD []
      else if imageExts.contains (pyLower in_ext) then in_ext
      else out_ext
    let base := (splitext (basename input_file)).1
    let newOutput := base ++ (str ("_toasted")) ++ out_ext2
    shlexJoin (tokens.dropLast ++ [newOutput])

/-! ## `app/command_generator.py`: the context-rich generator

`CommandGenerator` of `src/app/command_generator.py`.  The system prompt
template lives in `system_prompt.txt`, an external asset of the
application; it is modelled as a list of literal and placeholder pieces
(the named-placeholder fragment of `str.format` that such a template
uses).  `os.path.relpath` and the model collaborator are oracles. -/

/-- A Python value as seen by `clean_json_response`: a string, or anything
else (`isinstance(response_str, str)` is the only inspection performed). -/
inductive PyVal where
  | pstr (s : List Char)
  | nonstr (tag : List Char)
deriving DecidableEq

/-- The fence-removal regex `^\s*```(?:json)?\s*(.*)\s*```\s*$` (DOTALL,
IGNORECASE) applied with `re.match` to the already-stripped response
(line 202), followed by `.strip()` of the group.  On a stripped string the
outer `\s*` runs are empty, so the pattern matches exactly when the string
starts with a triple backtick whose remainder still ends with a separate
triple backtick; the optional case-insensitive `json` tag is consumed when
present (when it is, the remainder is at least seven characters long, the
tag and the closing fence being disjoint). -/
def appFenceStage (r : List Char) : List Char :=
  if strStartsWith r (str ("```")) && strEndsWith (r.drop 3) (str ("```")) then
    let rest := r.drop 3
    let core :=
      if strStartsWith (pyLower rest) (str ("json")) then
        ((rest.drop 4).dropLast.dropLast.dropLast)
      else rest.dropLast.dropLast.dropLast
    pyStrip core
  else r

/-- `CommandGenerator.clean_json_response` of `src/app/command_generator.py`:
non-string input yields the empty string; otherwise strip, remove a
markdown fence, and slice to the outermost brace span when both braces are
present. -/
def clean_json_response_app : PyVal → List Char
  | .nonstr _ => []
  | .pstr s => braceSlice (appFenceStage (pyStrip s))

/-- One piece of the system prompt template: literal text or a named
`{placeholder}`. -/
inductive TmplPiece where
  | lit (s : List Char)
  | hole (name : List Char)
deriving DecidableEq

/-- Named-placeholder `str.format`: concatenate the pieces, `.error name`
(Python `KeyError`) on the first placeholder the supplied mapping lacks. -/
def formatTmpl (supplied : List Char → Option (List Char)) :
    List TmplPiece → Except (List Char) (List Char)
  | [] => .ok []
  | .lit s :: rest =>
    match formatTmpl supplied rest with
    | .error e => .error e
    | .ok r => .ok (s ++ r)
  | .hole n :: rest =>
    match supplied n with
    | none => .error n
    | some v =>
      match formatTmpl supplied rest with
      | .error e => .error e
      | .ok r => .ok (v ++ r)

/-- The `system_context` dictionary, typed by the keys the generator reads.
A `none` field is a key absent from the dictionary. -/
structure SystemContext where
  os_info : Option (List Char)
  os_type : Option (List Char)
  shell : Option (List Char)
  ffmpeg_version : Option (List Char)
  ffmpeg_executable_path : Option (List Char)
  current_directory : Option (List Char)
  explicit_input_file : Option (List Char)
  detected_files_in_directory : Option (List (List Char))
  file_context_message : Option (List Char)
deriving DecidableEq

/-- Truthiness of the optional detected-files list. -/
def optTruthyL : Option (List (List Char)) → Bool
  | none => false
  | some l => !l.isEmpty

/-- A name wrapped in single quotation marks, as the f-strings of
`_format_file_context` render paths. -/
def quoteName (f : List Char) : List Char := sqc :: f ++ [sqc]

/-- The per-file choice of `_format_file_context` lines 69-81: prefer the
relative path when `relpath` succeeds, is strictly shorter, and has no
`../` beyond its first three characters; otherwise keep the absolute
path (also on a `relpath` `ValueError`). -/
def relFileChoice (rel : List Char → List Char → Except Unit (List Char))
    (cwd f_abs : List Char) : List Char :=
  match rel f_abs cwd with
  | .error _ => f_abs
  | .ok r =>
    if decide (r.length < f_abs.length) && !(strContains (r.drop 3) (str ("../"))) then r
    else f_abs

/-- `CommandGenerator._format_file_context`. -/
def format_file_context (rel : List Char → List Char → Except Unit (List Char))
    (ctx : SystemContext) : List Char :=
  let explicit := ctx.explicit_input_file
  let detected := ctx.detected_files_in_directory
  let cwd := ctx.current_directory.getD (str ("."))
  let l1 : List (List Char) := [str ("\nFILE CONTEXT:")]
  let l2 :=
    if optTruthyS explicit then
      l1 ++ [(str ("- Explicit input file provided: ")) ++ quoteName (explicit.getD []) ++
        (str (" (Use this exact path)"))]
    else l1
  let l3 :=
    if optTruthyL detected then
      let fs := (detected.getD []).map (relFileChoice rel cwd)
      let filesListStr := List.intercalate (str (", ")) (fs.map quoteName)
      let l := l2 ++ [(str ("- Media files found in directory ")) ++ quoteName cwd ++
        (str (": ")) ++ filesListStr]
      l ++ [(str ("- Note: In the generated command, use full absolute paths for these files where necessary (e.g., ")) ++
        quoteName ((detected.getD []).getD 0 []) ++ (str (" ...)."))]
    else l2
  let summary := ctx.file_context_message.getD []
  let l4 :=
    if !summary.isEmpty && !optTruthyS explicit && !optTruthyL detected then
      l3 ++ [(str ("- Additional context: ")) ++ summary]
    else if !optTruthyS explicit && !optTruthyL detected then
      l3 ++ [(str ("- No specific input file provided or common media files detected in the directory ")) ++
        quoteName cwd ++ (str ("."))]
    else l3
  if 1 < l4.length then List.intercalate (str ("\n")) l4 else []

/-- The keyword arguments `_prepare_llm_messages` passes to `str.format`
(lines 122-129): each context field is read with `dict.get` and a default,
so every one of the seven documented placeholder names is always supplied. -/
def ctxSupplied (ctx : SystemContext) (fileCtx : List Char) (k : List Char) :
    Option (List Char) :=
  if k = str ("os_info") then some (ctx.os_info.getD (str ("Unknown")))
  else if k = str ("os_type") then some (ctx.os_type.getD (str ("Unknown")))
  else if k = str ("shell") then some (ctx.shell.getD (str ("Unknown")))
  else if k = str ("ffmpeg_version") then some (ctx.ffmpeg_version.getD (str ("Unknown")))
  else if k = str ("ffmpeg_executable_path") then some (ctx.ffmpeg_executable_path.getD (str ("ffmpeg")))
  else if k = str ("current_directory") then some (ctx.current_directory.getD (str (".")))
  else if k = str ("file_context") then some fileCtx
  else none

/-- One conversation message (role and content). -/
structure ChatMsg where
  role : List Char
  content : List Char
deriving DecidableEq

/-- `CommandGenerator._prepare_llm_messages`: format the file context,
format the template (a `KeyError` becomes the
`ValueError("System context dictionary is missing required key: ...")`
of lines 131-134), prepend the system message, and append the
conversation history filtered of falsy-content messages. -/
def prepare_llm_messages (rel : List Char → List Char → Except Unit (List Char))
    (tmpl : List TmplPiece) (history : List ChatMsg) (ctx : SystemContext) :
    Except (List Char) (List ChatMsg) :=
  let fileCtx := format_file_context rel ctx
  match formatTmpl (ctxSupplied ctx fileCtx) tmpl with
  | .error k =>
    .error ((str ("System context dictionary is missing required key: ")) ++ quoteName k)
  | .ok prompt =>
    .ok (⟨str ("system"), prompt⟩ :: history.filter (fun m => !m.content.isEmpty))

/-- `CommandGenerator.generate_command` of `src/app/command_generator.py`:
prepare the messages (any `ValueError` propagates) and only then hand them
to the model collaborator `llm`, returning its raw response. -/
def generate_command_app (llm : List ChatMsg → List Char)
    (rel : List Char → List Char → Except Unit (List Char))
    (tmpl : List TmplPiece) (history : List ChatMsg) (ctx : SystemContext) :
    Except (List Char) (List Char) :=
  match prepare_llm_messages rel tmpl history ctx with
  | .error e => .error e
  | .ok msgs => .ok (llm msgs)

/-- Modelled from the spec: the system prompt template `system_prompt.txt`
is an external asset not among the embedded sources; per the spec it is a
template with exactly the named placeholders `os_info`, `os_type`,
`shell`, `ffmpeg_version`, `ffmpeg_executable_path`, `current_directory`
and `file_context`. -/
def tmplSeven : List TmplPiece :=
  [.hole (str ("os_info")), .hole (str ("os_type")), .hole (str ("shell")),
   .hole (str ("ffmpeg_version")), .hole (str ("ffmpeg_executable_path")),
   .hole (str ("current_directory")), .hole (str ("file_context"))]

/-- A system context with every key absent. -/
def ctxEmpty : SystemContext :=
  ⟨none, none, none, none, none, none, none, none, none⟩

/-- A relative-path oracle that always raises `ValueError` (never consulted
when no files are detected). -/
def relUndef : List Char → List Char → Except Unit (List Char) := fun _ _ => .error ()

/-! ## General lemmas about the string primitives -/

theorem strStartsWith_nil_right (a : List Char) : strStartsWith a [] = true := by
  cases a <;> rfl

theorem strStartsWith_append (a b p : List Char) (h : strStartsWith a p = true) :
    strStartsWith (a ++ b) p = true := by
  induction p generalizing a with
  | nil => exact strStartsWith_nil_right _
  | cons c cs ih =>
    cases a with
    | nil => simp [strStartsWith] at h
    | cons x xs =>
      simp only [strStartsWith, Bool.and_eq_true, decide_eq_true_eq] at h
      simp only [List.cons_append, strStartsWith, Bool.and_eq_true, decide_eq_true_eq]
      exact ⟨h.1, ih xs h.2⟩

theorem strContains_nil_right (s : List Char) : strContains s [] = true := by
  cases s <;> simp [strContains, strStartsWith_nil_right]

theorem strContains_append_left (a b sub : List Char) (h : strContains a sub = true) :
    strContains (a ++ b) sub = true := by
  induction a with
  | nil =>
    cases sub with
    | nil => exact strContains_nil_right b
    | cons c cs => simp [strContains, strStartsWith] at h
  | cons x xs ih =>
    simp only [strContains, Bool.or_eq_true] at h
    rcases h with h1 | h2
    · simp only [List.cons_append, strContains, Bool.or_eq_true]
      exact Or.inl (by simpa [List.cons_append] using strStartsWith_append (x :: xs) b _ h1)
    · simp only [List.cons_append, strContains, Bool.or_eq_true]
      exact Or.inr (ih h2)

theorem all_takeWhile (p : Char → Bool) (l : List Char) :
    (l.takeWhile p).all p = true := by
  induction l with
  | nil => rfl
  | cons c cs ih =>
    by_cases h : p c = true
    · simp [List.takeWhile_cons, h, ih]
    · simp [List.takeWhile_cons, h]

/-! ## Claim C1 -/

/-- Claim C1 (status: code_bug, evidence at the failing input).  With a
system context missing every required field (`ctxEmpty`) and the documented
seven-placeholder template, `generate_command` does not raise the claimed
`ValueError`: every `dict.get` call substitutes its default (`'Unknown'`,
`'ffmpeg'`, `'.'`), the prompt formats successfully, and the model
collaborator is invoked, so the call returns the model's response.  The
second conjunct exhibits the formatted system prompt built entirely out of
defaults. -/
theorem c1_missing_context_fields_are_defaulted :
    generate_command_app (fun _ => str ("model-response")) relUndef tmplSeven [] ctxEmpty =
      .ok (str ("model-response")) ∧
    prepare_llm_messages relUndef tmplSeven [] ctxEmpty =
      .ok [⟨str ("system"),
        (str ("UnknownUnknownUnknownUnknownffmpeg.")) ++ format_file_context relUndef ctxEmpty⟩] :=
  ⟨rfl, rfl⟩

/-! ## Claim C9 -/

/-- Claim C9: for every non-string input the sanitizer
`clean_json_response` of the application generator returns the empty
string; being a total Lean function, it raises nothing. -/
theorem c9_nonstring_input_yields_empty :
    ∀ tag : List Char, clean_json_response_app (.nonstr tag) = [] :=
  fun _ => rfl

/-! ## Claim C10 -/

/-- Claim C10: on the command `echo $` (a `'$'` followed by nothing but
whitespace, with no `'{'` anywhere) the classifier raises `IndexError`
(`command.split('$')[-1].split()[0]` on an empty token list); since
`run_command` calls the classifier outside its exception handlers and
`execute_with_retries` catches nothing, the whole executor raises instead
of returning a pair.  The subprocess outcome supplied to the oracle is
irrelevant: execution is never reached. -/
theorem c10_classifier_raises_and_executor_is_not_total :
    looks_like_shell_script false (str ("echo $")) = .error () ∧
    execute_with_retries 2 (fun _ =>
      run_command false (fun _ => none) .timeoutExpired (str ("echo $"))) = .error () :=
  ⟨rfl, rfl⟩

/-! ## Claim C2 -/

/-- The claim's reading of the variable-expansion clause: some `'$'`
immediately followed by `'{'` or by an alphanumeric character (the start
of an alphanumeric token). -/
def dollarImmediate (s : List Char) : Bool :=
  (List.range s.length).any (fun i =>
    s.getD i ' ' == '$' && (s.getD (i + 1) ' ' == '{' || (s.getD (i + 1) ' ').isAlphanum))

/-- The claim's Windows clause: a `%name%`-style token. -/
def percentTokenClaim (s : List Char) : Bool :=
  decide (2 < (splitOnChar '%' s).length) && strIsAlnum ((splitOnChar '%' s).getD 1 [])

/-- The shell-requirement condition exactly as claim C2 states it. -/
def shellCondClaim (isWindows : Bool) (s : List Char) : Bool :=
  kwStarts.any (fun k => strStartsWith (pyStrip (pyLower s)) k) ||
  shellOps.any (fun op => strContains s op) ||
  dollarImmediate s ||
  (isWindows && percentTokenClaim s)

/-- Counterexample to claim C2: on `echo $ abc` the classifier returns
true (the first whitespace token after the last `'$'` is `abc`, which is
alphanumeric), but no `'$'` in the command is immediately followed by
`'{'` or by an alphanumeric token, and no other clause of the claimed
condition holds, so the claimed condition is false. -/
theorem c2_counterexample :
    looks_like_shell_script false (str ("echo $ abc")) = .ok true ∧
    shellCondClaim false (str ("echo $ abc")) = false :=
  ⟨rfl, rfl⟩

/-- The corrected variable-expansion clause, as the code computes it: the
command contains a `'$'`, and either contains a `'{'` anywhere or the
first whitespace-delimited token after the last `'$'` exists and is wholly
alphanumeric. -/
def shellCondAmended (isWindows : Bool) (command : List Char) : Prop :=
  (∃ k ∈ kwStarts, strStartsWith (pyStrip (pyLower command)) k = true) ∨
  (∃ op ∈ shellOps, strContains command op = true) ∨
  (command.contains '$' = true ∧
    (command.contains '{' = true ∨
      ∃ t ts, pySplitWs ((splitOnChar '$' command).getLastD []) = t :: ts ∧
        strIsAlnum t = true)) ∨
  (isWindows = true ∧ command.contains '%' = true ∧
    2 < (splitOnChar '%' command).length ∧
    strIsAlnum ((splitOnChar '%' command).getD 1 []) = true)

theorem winPercent_iff (w : Bool) (s : List Char) :
    winPercent w s = true ↔
      (w = true ∧ s.contains '%' = true ∧ 2 < (splitOnChar '%' s).length ∧
        strIsAlnum ((splitOnChar '%' s).getD 1 []) = true) := by
  unfold winPercent
  by_cases hc : (s.contains '%' && w) = true
  · rw [if_pos hc]
    rw [Bool.and_eq_true] at hc
    constructor
    · intro hcond
      rw [Bool.and_eq_true, decide_eq_true_eq] at hcond
      exact ⟨hc.2, hc.1, hcond.1, hcond.2⟩
    · rintro ⟨-, -, hlen, halnum⟩
      rw [Bool.and_eq_true, decide_eq_true_eq]
      exact ⟨hlen, halnum⟩
  · rw [if_neg hc]
    constructor
    · intro h; exact absurd h (by simp)
    · rintro ⟨hw, hp, -, -⟩
      exact absurd (by rw [hp, hw]; rfl : (s.contains '%' && w) = true) hc

/-- Claim C2, amended: whenever the classifier returns (rather than
raising), it returns true exactly when the command starts with a shell
keyword, contains a shell operator, satisfies the corrected
variable-expansion clause (a `'$'` present together with a `'{'` anywhere
or a wholly alphanumeric first token after the last `'$'`), or, on the
Windows platform, contains a `%name%`-style token. -/
theorem c2_shell_classifier_amended (w : Bool) (s : List Char) (b : Bool)
    (h : looks_like_shell_script w s = .ok b) :
    b = true ↔ shellCondAmended w s := by
  unfold looks_like_shell_script at h
  by_cases h1 : (kwStarts.any fun k => strStartsWith (pyStrip (pyLower s)) k) = true
  · rw [if_pos h1] at h
    injection h with h; subst h
    simp only [true_iff]
    exact Or.inl (by simpa [List.any_eq_true] using h1)
  · rw [if_neg h1] at h
    by_cases h2 : (shellOps.any fun op => strContains s op) = true
    · rw [if_pos h2] at h
      injection h with h; subst h
      simp only [true_iff]
      exact Or.inr (Or.inl (by simpa [List.any_eq_true] using h2))
    · rw [if_neg h2] at h
      have nk : ¬ (∃ k ∈ kwStarts, strStartsWith (pyStrip (pyLower s)) k = true) := by
        simpa [List.any_eq_true] using h1
      have no : ¬ (∃ op ∈ shellOps, strContains s op = true) := by
        simpa [List.any_eq_true] using h2
      by_cases h3 : s.contains '$' = true
      · rw [if_pos h3] at h
        by_cases h4 : s.contains '{' = true
        · rw [if_pos h4] at h
          injection h with h; subst h
          simp only [true_iff]
          exact Or.inr (Or.inr (Or.inl ⟨h3, Or.inl h4⟩))
        · rw [if_neg h4] at h
          cases e : pySplitWs ((splitOnChar '$' s).getLastD []) with
          | nil => rw [e] at h; exact absurd h (by simp)
          | cons t ts =>
            rw [e] at h
            dsimp only [] at h
            by_cases h5 : strIsAlnum t = true
            · rw [if_pos h5] at h
              injection h with h; subst h
              simp only [true_iff]
              exact Or.inr (Or.inr (Or.inl ⟨h3, Or.inr ⟨t, ts, e, h5⟩⟩))
            · rw [if_neg h5] at h
              injection h with h; subst h
              rw [winPercent_iff]
              constructor
              · intro hw; exact Or.inr (Or.inr (Or.inr hw))
              · rintro (hk | ho | ⟨-, hbr | ⟨t2, ts2, e2, ha2⟩⟩ | hw)
                · exact absurd hk nk
                · exact absurd ho no
                · exact absurd hbr h4
                · rw [e] at e2; injection e2 with e2a e2b; subst e2a; exact absurd ha2 h5
                · exact hw
      · rw [if_neg h3] at h
        injection h with h; subst h
        rw [winPercent_iff]
        constructor
        · intro hw; exact Or.inr (Or.inr (Or.inr hw))
        · rintro (hk | ho | ⟨hd, -⟩ | hw)
          · exact absurd hk nk
          · exact absurd ho no
          · exact absurd hd h3
          · exact hw

/-- Witness for the amended claim C2, at the example command of the claim:
`ffmpeg -i a.mp4 out.mp4 && echo done` is classified as shell-requiring. -/
theorem c2_shell_classifier_amended_witness :
    looks_like_shell_script false (str ("ffmpeg -i a.mp4 out.mp4 && echo done")) = .ok true ∧
    (true = true ↔ shellCondAmended false (str ("ffmpeg -i a.mp4 out.mp4 && echo done"))) :=
  ⟨rfl, c2_shell_classifier_amended false (str ("ffmpeg -i a.mp4 out.mp4 && echo done")) true rfl⟩

/-! ## Retry-loop step lemmas -/

theorem retryLoop_done (run : Nat → Except Unit (Bool × List Char)) (maxRetries attempt : Nat)
    (lastErr : List Char) (sleeps : List Nat) (made : Nat) :
    retryLoop run maxRetries 0 attempt lastErr sleeps made = .ok ⟨false, lastErr, sleeps, made⟩ :=
  rfl

theorem retryLoop_break (run : Nat → Except Unit (Bool × List Char))
    (maxRetries r attempt : Nat) (lastErr out : List Char) (sleeps : List Nat) (made : Nat)
    (hA : attempt < maxRetries)
    (hrun : run (attempt + 1) = .ok (false, out))
    (hmark : (noRetryErrors.any fun m => strContains out m) = true) :
    retryLoop run maxRetries (r + 1) attempt lastErr sleeps made =
      .ok ⟨false, out, sleeps, made + 1⟩ := by
  rw [retryLoop, if_pos hA]
  dsimp only []
  rw [hrun]
  dsimp only []
  rw [if_pos hmark]

theorem retryLoop_step_cont (run : Nat → Except Unit (Bool × List Char))
    (maxRetries r attempt : Nat) (lastErr out : List Char) (sleeps : List Nat) (made : Nat)
    (hrun : run (attempt + 1) = .ok (false, out))
    (hmark : (noRetryErrors.any fun m => strContains out m) = false)
    (hlt : attempt + 1 < maxRetries) :
    retryLoop run maxRetries (r + 1) attempt lastErr sleeps made =
      retryLoop run maxRetries r (attempt + 1) out (sleeps ++ [2 ^ (attempt + 1)]) (made + 1) := by
  rw [retryLoop, if_pos (by omega : attempt < maxRetries)]
  dsimp only []
  rw [hrun]
  dsimp only []
  rw [if_neg (by simp [hmark]), if_pos hlt]

theorem retryLoop_step_last (run : Nat → Except Unit (Bool × List Char))
    (maxRetries r attempt : Nat) (lastErr out : List Char) (sleeps : List Nat) (made : Nat)
    (hA : attempt < maxRetries)
    (hrun : run (attempt + 1) = .ok (false, out))
    (hmark : (noRetryErrors.any fun m => strContains out m) = false)
    (hge : ¬ attempt + 1 < maxRetries) :
    retryLoop run maxRetries (r + 1) attempt lastErr sleeps made =
      retryLoop run maxRetries r (attempt + 1) out sleeps (made + 1) := by
  rw [retryLoop, if_pos hA]
  dsimp only []
  rw [hrun]
  dsimp only []
  rw [if_neg (by simp [hmark]), if_neg hge]

/-! ## Claim C3 -/

/-- Claim C3: a plain-vector command (the classifier answers false) whose
first token does not resolve on the search path makes the process facility
raise `FileNotFoundError`; `run_command` folds this into its
`FileNotFoundError`-labelled message, which matches a non-retryable marker,
so `execute_with_retries` returns failure after exactly one attempt with no
sleep, for every configured positive retry maximum. -/
theorem c3_executable_not_found_stops_after_one_attempt
    (maxRetries : Nat) (w : Bool) (which : List Char → Option (List Char))
    (cmd details t : List Char) (ts : List (List Char))
    (hMax : 1 ≤ maxRetries)
    (hShell : looks_like_shell_script w cmd = .ok false)
    (hSplit : shlexSplit cmd = .ok (t :: ts))
    (hWhich : which t = none) :
    execute_with_retries maxRetries
      (fun _ => run_command w which (.fileNotFound details) cmd) =
    .ok ⟨false,
      (str ("Error: FileNotFoundError during command execution. Command or shell not found? Details: ")) ++ details,
      [], 1⟩ := by
  have hrun : run_command w which (.fileNotFound details) cmd =
      .ok (false,
        (str ("Error: FileNotFoundError during command execution. Command or shell not found? Details: ")) ++ details) := by
    unfold run_command
    rw [hShell]
    dsimp only []
    rw [if_neg (by simp), hSplit]
    dsimp only []
    rfl
  have hmark : (noRetryErrors.any fun m =>
      strContains ((str ("Error: FileNotFoundError during command execution. Command or shell not found? Details: ")) ++ details) m) = true := by
    have h3 : strContains
        ((str ("Error: FileNotFoundError during command execution. Command or shell not found? Details: ")) ++ details)
        (str ("FileNotFoundError")) = true :=
      strContains_append_left _ _ _ (by decide)
    simp only [noRetryErrors, List.any_cons, List.any_nil, Bool.or_eq_true]
    exact Or.inr (Or.inr (Or.inl h3))
  obtain ⟨m, rfl⟩ : ∃ m, maxRetries = m + 1 := ⟨maxRetries - 1, by omega⟩
  unfold execute_with_retries
  rw [retryLoop_break _ _ m 0 _ _ _ _ (by omega) hrun hmark]

/-- Witness for claim C3 at a concrete world: command `nosuchcmd arg`,
empty search path, the subprocess raising `FileNotFoundError("x")`,
`max_retries = 2` (the constructor default). -/
theorem c3_executable_not_found_stops_after_one_attempt_witness :
    execute_with_retries 2 (fun _ =>
      run_command false (fun _ => none) (.fileNotFound (str ("x"))) (str ("nosuchcmd arg"))) =
    .ok ⟨false,
      (str ("Error: FileNotFoundError during command execution. Command or shell not found? Details: ")) ++ (str ("x")),
      [], 1⟩ :=
  c3_executable_not_found_stops_after_one_attempt 2 false (fun _ => none)
    (str ("nosuchcmd arg")) (str ("x")) (str ("nosuchcmd")) [str ("arg")]
    (by omega) rfl rfl rfl

/-! ## Claim C6 -/

/-- Claim C6: with `max_retries = 3` and every attempt failing with output
matching no non-retryable marker, the executor makes exactly three
attempts, sleeps `2 ^ 1` seconds after the first failure and `2 ^ 2` after
the second, does not sleep after the third, and returns failure with the
third attempt's output. -/
theorem c6_three_generic_failures_backoff
    (run : Nat → Except Unit (Bool × List Char)) (out1 out2 out3 : List Char)
    (h1 : run 1 = .ok (false, out1)) (h2 : run 2 = .ok (false, out2))
    (h3 : run 3 = .ok (false, out3))
    (m1 : (noRetryErrors.any fun m => strContains out1 m) = false)
    (m2 : (noRetryErrors.any fun m => strContains out2 m) = false)
    (m3 : (noRetryErrors.any fun m => strContains out3 m) = false) :
    execute_with_retries 3 run = .ok ⟨false, out3, [2 ^ 1, 2 ^ 2], 3⟩ := by
  unfold execute_with_retries
  calc retryLoop run 3 3 0 (str ("No error output captured.")) [] 0
      = retryLoop run 3 2 1 out1 ([] ++ [2 ^ 1]) 1 :=
        retryLoop_step_cont run 3 2 0 _ out1 [] 0 h1 m1 (by omega)
    _ = retryLoop run 3 1 2 out2 (([] ++ [2 ^ 1]) ++ [2 ^ 2]) 2 :=
        retryLoop_step_cont run 3 1 1 _ out2 _ 1 h2 m2 (by omega)
    _ = retryLoop run 3 0 3 out3 (([] ++ [2 ^ 1]) ++ [2 ^ 2]) 3 :=
        retryLoop_step_last run 3 0 2 _ out3 _ 2 (by omega) h3 m3 (by omega)
    _ = .ok ⟨false, out3, [2 ^ 1, 2 ^ 2], 3⟩ := rfl

/-- Witness for claim C6: every attempt answers a generic failure `boom`. -/
theorem c6_three_generic_failures_backoff_witness :
    execute_with_retries 3 (fun _ => .ok (false, str ("boom"))) =
      .ok ⟨false, str ("boom"), [2 ^ 1, 2 ^ 2], 3⟩ :=
  c6_three_generic_failures_backoff (fun _ => .ok (false, str ("boom")))
    (str ("boom")) (str ("boom")) (str ("boom")) rfl rfl rfl
    (by decide) (by decide) (by decide)

/-! ## Claim C4 -/

theorem replacePhLoop_cons_notI (actual : List Char) (found : Bool)
    (t : List Char) (l : List (List Char)) (ht : pyLower t ≠ str ("-i")) :
    replacePhLoop actual found (t :: l) = t :: replacePhLoop actual found l := by
  cases l with
  | nil => simp [replacePhLoop, ht]
  | cons u l2 => simp [replacePhLoop, ht]

theorem replacePhLoop_passthrough (actual : List Char) (found : Bool)
    (l rest : List (List Char)) (h : ∀ t ∈ l, pyLower t ≠ str ("-i")) :
    replacePhLoop actual found (l ++ rest) = l ++ replacePhLoop actual found rest := by
  induction l with
  | nil => rfl
  | cons t l ih =>
    have ht := h t (by simp)
    have hrest : ∀ x ∈ l, pyLower x ≠ str ("-i") := fun x hx => h x (by simp [hx])
    show replacePhLoop actual found (t :: (l ++ rest)) =
      t :: (l ++ replacePhLoop actual found rest)
    rw [replacePhLoop_cons_notI actual found t (l ++ rest) ht, ih hrest]

theorem replacePhLoop_first (actual a1 : List Char) (rest : List (List Char)) :
    replacePhLoop actual false ((str ("-i")) :: a1 :: rest) =
      (str ("-i")) :: actual :: replacePhLoop actual true rest := by
  simp [replacePhLoop, show pyLower (str ("-i")) = str ("-i") from by decide]

theorem replacePhLoop_second (actual a2 : List Char) (rest : List (List Char)) :
    replacePhLoop actual true ((str ("-i")) :: a2 :: rest) =
      replacePhLoop actual true rest := by
  simp [replacePhLoop, show pyLower (str ("-i")) = str ("-i") from by decide]

theorem filter_dashI_nil (l : List (List Char)) (h : ∀ t ∈ l, pyLower t ≠ str ("-i")) :
    l.filter (fun t => pyLower t == str ("-i")) = [] := by
  induction l with
  | nil => rfl
  | cons t l ih =>
    rw [List.filter_cons, if_neg (by simpa using h t (by simp))]
    exact ih (fun x hx => h x (by simp [hx]))

/-- Claim C4: when the token stream of the command is
`pre ++ [-i, a1] ++ mid ++ [-i, a2] ++ post` with the two displayed
designators the only tokens lowercasing to `-i`, the rewriting produces the
token stream `pre ++ [-i, actual] ++ mid ++ post` — exactly one `-i`,
immediately followed by the supplied file, the second designator and its
argument removed, all other tokens in their original relative order — and
`replace_placeholder_with_file` returns it shell-joined. -/
theorem c4_second_input_designator_dropped
    (cmd actual a1 a2 : List Char) (pre mid post : List (List Char))
    (hSplit : tokensOf cmd = pre ++ (str ("-i")) :: a1 :: (mid ++ (str ("-i")) :: a2 :: post))
    (hPre : ∀ t ∈ pre, pyLower t ≠ str ("-i"))
    (hMid : ∀ t ∈ mid, pyLower t ≠ str ("-i"))
    (hPost : ∀ t ∈ post, pyLower t ≠ str ("-i"))
    (hA1 : pyLower a1 ≠ str ("-i"))
    (hA2 : pyLower a2 ≠ str ("-i"))
    (hAct : pyLower actual ≠ str ("-i")) :
    replace_placeholder_with_file cmd actual =
      shlexJoin (pre ++ (str ("-i")) :: actual :: (mid ++ post)) ∧
    ((pre ++ (str ("-i")) :: actual :: (mid ++ post)).filter
        (fun t => pyLower t == str ("-i"))).length = 1 := by
  have hpost : replacePhLoop actual true post = post := by
    have := replacePhLoop_passthrough actual true post [] hPost
    simpa [replacePhLoop] using this
  have key : replacePhLoop actual false
      (pre ++ (str ("-i")) :: a1 :: (mid ++ (str ("-i")) :: a2 :: post)) =
      pre ++ (str ("-i")) :: actual :: (mid ++ post) := by
    rw [replacePhLoop_passthrough actual false pre _ hPre, replacePhLoop_first,
        replacePhLoop_passthrough actual true mid _ hMid, replacePhLoop_second, hpost]
  constructor
  · unfold replace_placeholder_with_file
    rw [hSplit, key]
  · rw [List.filter_append, filter_dashI_nil pre hPre, List.filter_cons,
      if_pos (by decide), List.filter_cons, if_neg (by simpa using hAct),
      List.filter_append, filter_dashI_nil mid hMid, filter_dashI_nil post hPost]
    rfl

/-- Witness for claim C4: `ffmpeg -i a.mp4 -b -i b.mp4 out.mp4` with actual
file `real.mp4` becomes `ffmpeg -i real.mp4 -b out.mp4`. -/
theorem c4_second_input_designator_dropped_witness :
    replace_placeholder_with_file (str ("ffmpeg -i a.mp4 -b -i b.mp4 out.mp4"))
      (str ("real.mp4")) = str ("ffmpeg -i real.mp4 -b out.mp4") := by
  have h := c4_second_input_designator_dropped
    (str ("ffmpeg -i a.mp4 -b -i b.mp4 out.mp4")) (str ("real.mp4"))
    (str ("a.mp4")) (str ("b.mp4")) [str ("ffmpeg")] [str ("-b")] [str ("out.mp4")]
    rfl (by decide) (by decide) (by decide) (by decide) (by decide) (by decide)
  exact h.1.trans (by decide)

/-! ## Claim C7 -/

/-- Claim C7, for both `clean_json_response` implementations: writing `r`
for the trimmed, fence-stripped input, when `r` contains both a `'{'` and a
`'}'` the result is exactly the slice of `r` from the first `'{'` to the
last `'}'` inclusive; when either is absent the result is `r` unchanged
(and, both functions being total, nothing is raised). -/
theorem c7_brace_span_extraction (s : List Char) :
    (∀ i j, firstIdxOf '{' (appFenceStage (pyStrip s)) = some i →
        lastIdxOf '}' (appFenceStage (pyStrip s)) = some j →
        clean_json_response_app (.pstr s) =
          ((appFenceStage (pyStrip s)).drop i).take (j + 1 - i)) ∧
    ((firstIdxOf '{' (appFenceStage (pyStrip s)) = none ∨
        lastIdxOf '}' (appFenceStage (pyStrip s)) = none) →
      clean_json_response_app (.pstr s) = appFenceStage (pyStrip s)) ∧
    (∀ i j, firstIdxOf '{' (simpleFenceStage (pyStrip s)) = some i →
        lastIdxOf '}' (simpleFenceStage (pyStrip s)) = some j →
        clean_json_response_simple s =
          ((simpleFenceStage (pyStrip s)).drop i).take (j + 1 - i)) ∧
    ((firstIdxOf '{' (simpleFenceStage (pyStrip s)) = none ∨
        lastIdxOf '}' (simpleFenceStage (pyStrip s)) = none) →
      clean_json_response_simple s = simpleFenceStage (pyStrip s)) := by
  refine ⟨?_, ?_, ?_, ?_⟩
  · intro i j h1 h2
    show braceSlice (appFenceStage (pyStrip s)) = _
    unfold braceSlice
    rw [h1, h2]
  · intro h
    show braceSlice (appFenceStage (pyStrip s)) = _
    unfold braceSlice
    rcases h with h | h
    · rw [h]
    · cases e : firstIdxOf '{' (appFenceStage (pyStrip s)) with
      | none => rfl
      | some i => rw [h]
  · intro i j h1 h2
    show braceSlice (simpleFenceStage (pyStrip s)) = _
    unfold braceSlice
    rw [h1, h2]
  · intro h
    show braceSlice (simpleFenceStage (pyStrip s)) = _
    unfold braceSlice
    rcases h with h | h
    · rw [h]
    · cases e : firstIdxOf '{' (simpleFenceStage (pyStrip s)) with
      | none => rfl
      | some i => rw [h]

/-- Witness for claim C7: prose around a brace span is trimmed to exactly
that span. -/
theorem c7_brace_span_extraction_witness :
    clean_json_response_app (.pstr ((str ("noise ")) ++ '{' :: (str ("a:1")) ++ '}' :: (str (" tail")))) =
      '{' :: (str ("a:1")) ++ ['}'] := by
  have h := (c7_brace_span_extraction
      ((str ("noise ")) ++ '{' :: (str ("a:1")) ++ '}' :: (str (" tail")))).1
    6 10 (by decide) (by decide)
  exact h.trans (by decide)

/-! ## Claim C8 -/

/-- Claim C8: commands of fewer than three tokens are returned unmodified;
otherwise only the last token is replaced by
`{input-basename-without-extension}_toasted{extension}`, the extension
being the supplied desired extension when truthy, else the input file's
extension when (lowercased) it belongs to the still-image extension set,
else the original last token's extension.  `imageExts` stands for the
`IMAGE_EXTENSIONS` set imported from the external `file_manager` module. -/
theorem c8_update_output_filename (imageExts : List (List Char))
    (cmd input : List Char) (desired : Option (List Char)) (tokens : List (List Char))
    (hT : tokensOf cmd = tokens) :
    (tokens.length < 3 → update_output_filename imageExts cmd input desired = cmd) ∧
    (3 ≤ tokens.length → ∀ d, desired = some d → d ≠ [] →
      update_output_filename imageExts cmd input desired =
        shlexJoin (tokens.dropLast ++
          [(splitext (basename input)).1 ++ (str ("_toasted")) ++ d])) ∧
    (3 ≤ tokens.length → optTruthyS desired = false →
      imageExts.contains (pyLower (splitext input).2) = true →
      update_output_filename imageExts cmd input desired =
        shlexJoin (tokens.dropLast ++
          [(splitext (basename input)).1 ++ (str ("_toasted")) ++ (splitext input).2])) ∧
    (3 ≤ tokens.length → optTruthyS desired = false →
      imageExts.contains (pyLower (splitext input).2) = false →
      update_output_filename imageExts cmd input desired =
        shlexJoin (tokens.dropLast ++
          [(splitext (basename input)).1 ++ (str ("_toasted")) ++
            (splitext (tokens.getLastD [])).2])) := by
  have main : update_output_filename imageExts cmd input desired =
      if tokens.length < 3 then cmd
      else shlexJoin (tokens.dropLast ++
        [(splitext (basename input)).1 ++ (str ("_toasted")) ++
          (if optTruthyS desired then desired.getD []
           else if imageExts.contains (pyLower (splitext input).2) then (splitext input).2
           else (splitext (tokens.getLastD [])).2)]) := by
    unfold update_output_filename
    rw [hT]
  refine ⟨?_, ?_, ?_, ?_⟩
  · intro h
    rw [main, if_pos h]
  · intro h d hd hne
    subst hd
    have ht : optTruthyS (some d) = true := by
      simp [optTruthyS, List.isEmpty_eq_false.mpr hne]
    rw [main, if_neg (by omega), ht]
    rfl
  · intro h hf himg
    rw [main, if_neg (by omega), hf, himg]
    rfl
  · intro h hf himg
    rw [main, if_neg (by omega), hf, himg]
    rfl

/-- Witness for claim C8: a still-image input forces the image extension on
the derived output token. -/
theorem c8_update_output_filename_witness :
    update_output_filename [str (".png")] (str ("ffmpeg -i x.png out.mp4"))
      (str ("x.png")) none = str ("ffmpeg -i x.png x_toasted.png") := by
  have h := (c8_update_output_filename [str (".png")] (str ("ffmpeg -i x.png out.mp4"))
      (str ("x.png")) none (tokensOf (str ("ffmpeg -i x.png out.mp4"))) rfl).2.2.1
    (by decide) (by decide) (by decide)
  exact h.trans (by decide)

/-! ## Claim C5 -/

theorem strStartsWith_self_append (p x : List Char) : strStartsWith (p ++ x) p = true := by
  induction p with
  | nil => exact strStartsWith_nil_right x
  | cons a p ih => simp [strStartsWith, ih]

theorem takeWhile_append_stop (p : Char → Bool) (l1 : List Char) (x : Char) (l2 : List Char)
    (h : ∀ a ∈ l1, p a = true) (hx : p x = false) :
    (l1 ++ x :: l2).takeWhile p = l1 := by
  induction l1 with
  | nil => simp [List.takeWhile_cons, hx]
  | cons a l ih =>
    simp [List.takeWhile_cons, h a (by simp), ih (fun b hb => h b (by simp [hb]))]

theorem subScaleMinAux_no_match (s : List Char) (fuel : Nat)
    (hf : s.length ≤ fuel) (h : ∀ k, k < s.length → tryScaleAt (s.drop k) = none) :
    subScaleMinAux fuel s = s := by
  induction s generalizing fuel with
  | nil => cases fuel with
    | zero => rfl
    | succ f => rfl
  | cons c cs ih =>
    obtain ⟨f, rfl⟩ : ∃ f, fuel = f + 1 :=
      ⟨fuel - 1, by simp only [List.length_cons] at hf; omega⟩
    have h0 := h 0 (by simp)
    rw [List.drop_zero] at h0
    simp only [subScaleMinAux, h0]
    exact congrArg (c :: ·) (ih f (by simp only [List.length_cons] at hf; omega) (fun k hk => by
      have := h (k + 1) (by simp only [List.length_cons]; omega)
      rwa [List.drop_succ_cons] at this))

theorem subScaleMinAux_scan_front (c1 tail : List Char) (fuel : Nat)
    (hf : c1.length ≤ fuel)
    (h : ∀ k, k < c1.length → tryScaleAt (c1.drop k ++ tail) = none) :
    subScaleMinAux fuel (c1 ++ tail) = c1 ++ subScaleMinAux (fuel - c1.length) tail := by
  induction c1 generalizing fuel with
  | nil => simp
  | cons c cs ih =>
    obtain ⟨f, rfl⟩ : ∃ f, fuel = f + 1 :=
      ⟨fuel - 1, by simp only [List.length_cons] at hf; omega⟩
    have h0 := h 0 (by simp)
    rw [List.drop_zero, List.cons_append] at h0
    show subScaleMinAux (f + 1) (c :: (cs ++ tail)) = _
    simp only [subScaleMinAux, h0]
    rw [ih f (by simp only [List.length_cons] at hf; omega) (fun k hk => by
      have := h (k + 1) (by simp only [List.length_cons]; omega)
      rwa [List.drop_succ_cons] at this)]
    have : f + 1 - (c :: cs).length = f - cs.length := by
      simp only [List.length_cons]
      omega
    rw [this, List.cons_append]

theorem tryScaleAt_construct (inner rest : List Char)
    (hne : inner ≠ []) (hpar : ∀ c ∈ inner, c ≠ ')') :
    tryScaleAt ((str ("scale=min(")) ++ (inner ++ ')' :: rest)) = some (inner, rest) := by
  have hsw : strStartsWith (pyLower ((str ("scale=min(")) ++ (inner ++ ')' :: rest)))
      (str ("scale")) = true := by
    rw [show pyLower ((str ("scale=min(")) ++ (inner ++ ')' :: rest)) =
        (str ("scale")) ++ ((str ("=min(")) ++ pyLower (inner ++ ')' :: rest)) from rfl]
    exact strStartsWith_self_append _ _
  unfold tryScaleAt
  rw [if_pos hsw]
  rw [show (((str ("scale=min(")) ++ (inner ++ ')' :: rest)).drop 5).dropWhile pyIsSpaceCh =
      (str ("=")) ++ ('m' :: 'i' :: 'n' :: '(' :: (inner ++ ')' :: rest)) from rfl]
  unfold scaleEqPart
  rw [if_pos (strStartsWith_self_append (str ("=")) _)]
  rw [show (((str ("=")) ++ ('m' :: 'i' :: 'n' :: '(' :: (inner ++ ')' :: rest))).drop 1).dropWhile
        pyIsSpaceCh = 'm' :: 'i' :: 'n' :: '(' :: (inner ++ ')' :: rest) from rfl]
  unfold scaleMinPart
  rw [if_pos (show strStartsWith (pyLower ('m' :: 'i' :: 'n' :: '(' :: (inner ++ ')' :: rest)))
      (str ("min(")) = true from by
    rw [show pyLower ('m' :: 'i' :: 'n' :: '(' :: (inner ++ ')' :: rest)) =
        (str ("min(")) ++ pyLower (inner ++ ')' :: rest) from rfl]
    exact strStartsWith_self_append _ _)]
  rw [show ('m' :: 'i' :: 'n' :: '(' :: (inner ++ ')' :: rest)).drop 4 = inner ++ ')' :: rest
      from rfl]
  unfold scaleInner
  have htw : (inner ++ ')' :: rest).takeWhile (fun c => c != ')') = inner :=
    takeWhile_append_stop _ inner ')' rest
      (fun a ha => by simpa using hpar a ha) (by decide)
  rw [htw]
  rw [if_neg (by simp [List.isEmpty_eq_false.mpr hne])]
  rw [List.drop_left]
  rw [if_pos (show strStartsWith (')' :: rest) (str (")")) = true from
    strStartsWith_self_append (str (")")) rest)]
  rfl

theorem subScaleMin_single (c1 inner c2 : List Char)
    (hne : inner ≠ []) (hpar : ∀ c ∈ inner, c ≠ ')')
    (h1 : ∀ k, k < c1.length →
      tryScaleAt (c1.drop k ++ ((str ("scale=min(")) ++ (inner ++ ')' :: c2))) = none)
    (h2 : ∀ k, k < c2.length → tryScaleAt (c2.drop k) = none) :
    subScaleMin (c1 ++ ((str ("scale=min(")) ++ (inner ++ ')' :: c2))) =
      c1 ++ (scaleRepl inner ++ c2) := by
  unfold subScaleMin
  rw [subScaleMinAux_scan_front c1 _ _ (by simp) h1]
  congr 1
  rw [show (c1 ++ ((str ("scale=min(")) ++ (inner ++ ')' :: c2))).length - c1.length =
      ((str ("scale=min(")) ++ (inner ++ ')' :: c2)).length from by simp]
  rw [show (str ("scale=min(")) ++ (inner ++ ')' :: c2) =
      's' :: ((str ("cale=min(")) ++ (inner ++ ')' :: c2)) from rfl]
  rw [List.length_cons]
  simp only [subScaleMinAux]
  rw [show 's' :: ((str ("cale=min(")) ++ (inner ++ ')' :: c2)) =
      (str ("scale=min(")) ++ (inner ++ ')' :: c2) from rfl]
  rw [tryScaleAt_construct inner c2 hne hpar]
  dsimp only []
  congr 1
  exact subScaleMinAux_no_match c2 _
    (by simp only [List.length_append, List.length_cons]; omega) h2

theorem tryVfAt_ws (s ws : List Char) (q : Char) (content rest : List Char)
    (h : tryVfAt s = some (ws, q, content, rest)) : ws.all pyIsSpaceCh = true := by
  unfold tryVfAt at h
  by_cases h1 : strStartsWith s (str ("-vf")) = true
  · rw [if_pos h1] at h
    dsimp only [] at h
    by_cases h2 : ((s.drop 3).takeWhile pyIsSpaceCh).isEmpty = true
    · rw [if_pos h2] at h
      exact absurd h (by simp)
    · rw [if_neg h2] at h
      cases e : (s.drop 3).drop ((s.drop 3).takeWhile pyIsSpaceCh).length with
      | nil =>
        rw [e] at h
        exact absurd h (by simp)
      | cons q2 rest2 =>
        rw [e] at h
        dsimp only [] at h
        by_cases h3 : (q2 = '"' || q2 = sqc) = true
        · rw [if_pos h3] at h
          rw [Option.map_eq_some'] at h
          obtain ⟨p, hp, hpack⟩ := h
          simp only [Prod.mk.injEq] at hpack
          rw [← hpack.1]
          exact all_takeWhile _ _
        · rw [if_neg h3] at h
          exact absurd h (by simp)
  · rw [if_neg h1] at h
    exact absurd h (by simp)

theorem findVf_ws (cmd pre ws : List Char) (q : Char) (content rest : List Char)
    (h : findVf cmd = some (pre, ws, q, content, rest)) : ws.all pyIsSpaceCh = true := by
  induction cmd generalizing pre with
  | nil => exact absurd h (by simp [findVf])
  | cons c cs ih =>
    unfold findVf at h
    cases e : tryVfAt (c :: cs) with
    | some r =>
      rw [e] at h
      dsimp only [] at h
      injection h with h
      simp only [Prod.mk.injEq] at h
      rw [← h.2.1]
      exact tryVfAt_ws (c :: cs) r.1 r.2.1 r.2.2.1 r.2.2.2 e
    | none =>
      rw [e] at h
      dsimp only [] at h
      rw [Option.map_eq_some'] at h
      obtain ⟨r, hr, hpack⟩ := h
      simp only [Prod.mk.injEq] at hpack
      obtain ⟨-, hws, hqe, hcont, hrest⟩ := hpack
      exact ih r.1 (by rw [hr, ← hws, ← hqe, ← hcont, ← hrest])

theorem expandTpl_no_escape (g1 : List Char) (g2 : Char) (g3 t : List Char)
    (h : '\\' ∉ t) : expandTpl g1 g2 g3 t = .ok t := by
  induction t with
  | nil => rfl
  | cons c cs ih =>
    have hc : ¬ c = '\\' := fun e => h (by simp [e])
    have hcs : '\\' ∉ cs := fun m => h (List.mem_cons_of_mem _ m)
    cases cs with
    | nil =>
      simp only [expandTpl, if_neg hc]
      rfl
    | cons d cs2 =>
      rw [show expandTpl g1 g2 g3 (c :: d :: cs2) =
          (expandTpl g1 g2 g3 (d :: cs2)).map (fun r => c :: r) from by
        simp [expandTpl, hc]]
      rw [ih hcs]
      rfl

theorem removeAll_append (c : Char) (a b : List Char) :
    removeAll c (a ++ b) = removeAll c a ++ removeAll c b := by
  unfold removeAll
  exact List.filter_append _ _

theorem removeAll_eq_self (c : Char) (l : List Char) (h : ∀ a ∈ l, a ≠ c) :
    removeAll c l = l := by
  unfold removeAll
  rw [List.filter_eq_self]
  intro a ha
  simpa using h a ha

theorem scaleRepl_mem (inner : List Char) (a : Char) (ha : a ∈ scaleRepl inner) :
    a ∈ str ("scale=min()") ∨ a = sqc ∨ a ∈ inner := by
  unfold scaleRepl at ha
  rcases List.mem_append.mp ha with h1 | h1
  · rcases List.mem_append.mp h1 with h2 | h2
    · rcases List.mem_append.mp h2 with h3 | h3
      · exact Or.inl ((by decide : ∀ x ∈ str ("scale="), x ∈ str ("scale=min()")) a h3)
      · rcases List.mem_cons.mp h3 with rfl | h4
        · exact Or.inr (Or.inl rfl)
        · exact Or.inl ((by decide : ∀ x ∈ str ("min("), x ∈ str ("scale=min()")) a h4)
    · exact Or.inr (Or.inr h2)
  · rcases List.mem_cons.mp h1 with rfl | h2
    · exact Or.inl (by decide)
    · rcases List.mem_cons.mp h2 with rfl | h3
      · exact Or.inr (Or.inl rfl)
      · exact absurd h3 (List.not_mem_nil a)

/-- Counterexample to claim C5 as universally stated, at three in-scope
inputs (each a command whose quoted `-vf` value contains a
`scale=min(...)` construct).  First, a backslash in the filter value makes
the replacement-template expansion of `re.sub` reject the rewritten value
(`re.error`, a bad escape), so `fix_command_quotes` raises instead of
returning the rewritten command the claim describes.  Second, when the
value holds two `scale=min(...)` constructs, both are single-quoted, not
only the one the claim's singular description covers.  Third, with a
single-quoted value, a double quote inside the `min` argument is stripped
as well — not only the quotes in the rest of the filter value. -/
theorem c5_counterexample :
    fix_command_quotes ((str ("ffmpeg -vf ")) ++ '"' ::
        ((str ("scale=min(10,iw):\\sx")) ++ '"' :: (str (" out.mp4")))) = .error () ∧
    fix_command_quotes ((str ("a -vf ")) ++ '"' ::
        ((str ("scale=min(1,2) scale=min(3,4)")) ++ '"' :: (str (" b")))) =
      .ok ((str ("a -vf ")) ++ '"' :: ((str ("scale=")) ++ sqc ::
        ((str ("min(1,2)")) ++ sqc :: ((str (" scale=")) ++ sqc ::
          ((str ("min(3,4)")) ++ sqc :: ('"' :: (str (" b")))))))) ∧
    fix_command_quotes ((str ("x -vf ")) ++ sqc ::
        ((str ("scale=min(1")) ++ '"' :: ((str ("0,iw)")) ++ sqc :: (str (" y"))))) =
      .ok ((str ("x -vf ")) ++ '"' :: ((str ("scale=")) ++ sqc ::
        ((str ("min(10,iw)")) ++ sqc :: ('"' :: (str (" y")))))) :=
  ⟨rfl, rfl, rfl⟩

/-- Claim C5, amended: for a command whose first quoted `-vf` value
contains a `scale=min(...)` construct, provided the value holds no
backslash (otherwise the `re.sub` replacement-template escape processing
garbles or rejects the rewrite), the construct is the only one in the
value, and its `min` argument contains no closing parenthesis and no
double quote, `fix_command_quotes` rewrites exactly that first match: the
value keeps its surrounding text with every embedded double quote
stripped, only the `min(...)` portion acquires single quotes, the whole
value is re-wrapped in double quotes, and the rest of the command
(including any later `-vf` argument) is untouched; and a command with no
quoted `-vf` argument is returned unchanged. -/
theorem c5_vf_quote_repair :
    (∀ (cmd pre ws content rest c1 inner c2 : List Char) (q : Char),
      findVf cmd = some (pre, ws, q, content, rest) →
      content = c1 ++ ((str ("scale=min(")) ++ (inner ++ ')' :: c2)) →
      inner ≠ [] →
      (∀ c ∈ inner, c ≠ ')') →
      '"' ∉ inner →
      '\\' ∉ content →
      (∀ k, k < c1.length →
        tryScaleAt (c1.drop k ++ ((str ("scale=min(")) ++ (inner ++ ')' :: c2))) = none) →
      (∀ k, k < c2.length → tryScaleAt (c2.drop k) = none) →
      fix_command_quotes cmd =
        .ok (pre ++ (((str ("-vf")) ++ ws) ++ '"' ::
          ((removeAll '"' c1 ++ (scaleRepl inner ++ removeAll '"' c2)) ++ ['"'])) ++ rest)) ∧
    (∀ cmd, findVf cmd = none → fix_command_quotes cmd = .ok cmd) := by
  constructor
  · intro cmd pre ws content rest c1 inner c2 q hFind hContent hne hpar hq hnb h1 h2
    have hsub : subScaleMin content = c1 ++ (scaleRepl inner ++ c2) := by
      rw [hContent]
      exact subScaleMin_single c1 inner c2 hne hpar h1 h2
    have hscRepl : removeAll '"' (scaleRepl inner) = scaleRepl inner := by
      refine removeAll_eq_self _ _ (fun a ha => ?_)
      rcases scaleRepl_mem inner a ha with hm | hm | hm
      · exact (by decide : ∀ x ∈ str ("scale=min()"), x ≠ '"') a hm
      · rw [hm]; decide
      · exact fun e => hq (e ▸ hm)
    have hff : removeAll '"' (subScaleMin content) =
        removeAll '"' c1 ++ (scaleRepl inner ++ removeAll '"' c2) := by
      rw [hsub, removeAll_append, removeAll_append, hscRepl]
    have hc1sub : ∀ a ∈ c1, a ∈ content := by
      intro a ha
      rw [hContent]
      exact List.mem_append_left _ ha
    have hc2sub : ∀ a ∈ c2, a ∈ content := by
      intro a ha
      rw [hContent]
      exact List.mem_append_right _
        (List.mem_append_right _
          (List.mem_append_right _ (List.mem_cons_of_mem _ ha)))
    have hinnersub : ∀ a ∈ inner, a ∈ content := by
      intro a ha
      rw [hContent]
      exact List.mem_append_right _
        (List.mem_append_right _ (List.mem_append_left _ ha))
    have hwsAll : ws.all pyIsSpaceCh = true := findVf_ws cmd pre ws q content rest hFind
    have hwsnb : ∀ a ∈ ws, a ≠ '\\' := by
      intro a ha e
      have hsp := (List.all_eq_true.mp hwsAll) a ha
      rw [e] at hsp
      exact absurd hsp (by decide)
    have hffnb : ∀ a ∈ removeAll '"' (subScaleMin content), a ≠ '\\' := by
      intro a ha
      rw [hff] at ha
      simp only [List.mem_append] at ha
      rcases ha with ha | ha | ha
      · exact fun e => hnb (e ▸ hc1sub a (List.mem_of_mem_filter ha))
      · rcases scaleRepl_mem inner a ha with hm | hm | hm
        · exact (by decide : ∀ x ∈ str ("scale=min()"), x ≠ '\\') a hm
        · rw [hm]; decide
        · exact fun e => hnb (e ▸ hinnersub a hm)
      · exact fun e => hnb (e ▸ hc2sub a (List.mem_of_mem_filter ha))
    have htplnb : '\\' ∉ (((str ("-vf")) ++ ws) ++ '"' ::
        (removeAll '"' (subScaleMin content) ++ ['"'])) := by
      intro hm
      rcases List.mem_append.mp hm with hm1 | hm1
      · rcases List.mem_append.mp hm1 with hm2 | hm2
        · exact (by decide : ∀ x ∈ str ("-vf"), x ≠ '\\') _ hm2 rfl
        · exact hwsnb _ hm2 rfl
      · rcases List.mem_cons.mp hm1 with e | hm2
        · exact absurd e (by decide)
        · rcases List.mem_append.mp hm2 with hm3 | hm3
          · exact hffnb _ hm3 rfl
          · rcases List.mem_cons.mp hm3 with e | h0
            · exact absurd e (by decide)
            · exact absurd h0 (List.not_mem_nil _)
    unfold fix_command_quotes
    rw [hFind]
    dsimp only []
    rw [expandTpl_no_escape _ q content _ htplnb]
    dsimp only []
    rw [hff]
  · intro cmd h
    unfold fix_command_quotes
    rw [h]

/-- Witness for claim C5: the end-to-end example
`ffmpeg -i in.mp4 -vf "scale=min(1280,iw):-2" out.mp4` has its filter
value repaired to single-quote only the `min(...)` portion. -/
theorem c5_vf_quote_repair_witness :
    fix_command_quotes ((str ("ffmpeg -i in.mp4 -vf ")) ++ '"' ::
        ((str ("scale=min(1280,iw):-2")) ++ '"' :: (str (" out.mp4")))) =
      .ok ((str ("ffmpeg -i in.mp4 -vf ")) ++ '"' ::
        ((str ("scale=")) ++ sqc :: ((str ("min(1280,iw)")) ++ sqc ::
          ((str (":-2")) ++ '"' :: (str (" out.mp4")))))) := by
  have h := c5_vf_quote_repair.1
    ((str ("ffmpeg -i in.mp4 -vf ")) ++ '"' ::
      ((str ("scale=min(1280,iw):-2")) ++ '"' :: (str (" out.mp4"))))
    (str ("ffmpeg -i in.mp4 ")) [' '] (str ("scale=min(1280,iw):-2")) (str (" out.mp4"))
    [] (str ("1280,iw")) (str (":-2")) '"'
    (by decide) rfl (by decide) (by decide) (by decide) (by decide)
    (by intro k hk; simp at hk) (by decide)
  exact h.trans (congrArg Except.ok (by decide))
